import Mathlib

/-!
Verification of the WMT14 en-fr corpus-preparation pipeline
(`examples_python/translation/prepare-wmt14en2fr.py`) and the loguru
logging shims (`fairseq/utils_loguru.py`).

Each Python construct used by the claims is embedded as an executable
Lean definition; the theorems at the end of the file settle the claims
against these definitions.
-/

namespace Wmt14Prep

/-! ### Train/validation split

The script splits the concatenated per-language training file with

    awk '{if (NR%1333 == 0)  print $0; }' src > val
    awk '{if (NR%1333 != 0)  print $0; }' src > train

`NR` is awk's 1-based record (line) number.  We model a text file as a
`List String` of its lines and the awk program as a recursive scan that
carries the current record number. -/

/-- One awk pass over the lines of a file: `nr` is the record number of
the first line of `xs`; a line is printed exactly when `keep nr` holds.
Mirrors `awk '{if (cond(NR)) print $0; }'`. -/
def awkFilterAux (keep : Nat → Bool) : Nat → List String → List String
  | _, [] => []
  | nr, x :: xs =>
    if keep nr then x :: awkFilterAux keep (nr + 1) xs
    else awkFilterAux keep (nr + 1) xs

/-- `awk` numbers records from 1. -/
def awkFilter (keep : Nat → Bool) (xs : List String) : List String :=
  awkFilterAux keep 1 xs

/-- `awk '{if (NR%1333 == 0)  print $0; }'`: the validation side of the split. -/
def splitVal (xs : List String) : List String :=
  awkFilter (fun nr => nr % 1333 == 0) xs

/-- `awk '{if (NR%1333 != 0)  print $0; }'`: the training side of the split. -/
def splitTrain (xs : List String) : List String :=
  awkFilter (fun nr => nr % 1333 != 0) xs

/-- The 0-based indices (into a file of `n` lines) whose 1-based line
number satisfies `keep`; these are the lines an `awkFilter keep` pass
emits, in their original order. -/
def keptIndices (keep : Nat → Bool) (n : Nat) : List Nat :=
  (List.range n).filter (fun i => keep (i + 1))

/-- 0-based indices of the lines the validation side keeps: 1-based line
number divisible by 1333. -/
def valIndices (n : Nat) : List Nat :=
  keptIndices (fun nr => nr % 1333 == 0) n

/-- 0-based indices of the lines the training side keeps: 1-based line
number not divisible by 1333. -/
def trainIndices (n : Nat) : List Nat :=
  keptIndices (fun nr => nr % 1333 != 0) n

/-! ### External command execution (`execute`, script lines 53-62)

`execute` shells out through `subprocess.check_output`; on a non-zero
exit status it logs the captured output and calls the Python builtin
`exit()` **with no argument**, which raises `SystemExit(None)`: the
process then terminates with exit status 0. -/

/-- Result of one shelled-out external command. -/
inductive CmdResult
  | success
  | failure (output : String)
deriving DecidableEq

/-- Exit status of the Python process after `exit(code)`:
`SystemExit(None)` (i.e. bare `exit()`) terminates with status 0. -/
def pyExitStatus (code : Option Nat) : Nat :=
  code.getD 0

/-- Outcome of one `execute(command)` call. -/
inductive ExecOutcome
  | ok
  | exited (status : Nat)
deriving DecidableEq

/-- `execute`: run the command; on `CalledProcessError` log the captured
output and call `exit()` (no argument). -/
def execute (r : CmdResult) : ExecOutcome :=
  match r with
  | .success => .ok
  | .failure _ => .exited (pyExitStatus none)

/-- Outcome of running the sequential pipeline: either all commands
completed, or the process terminated with `status` after running the
listed commands (in order). -/
inductive PipelineResult
  | completed (ran : List String)
  | terminated (status : Nat) (ran : List String)
deriving DecidableEq

/-- The pipeline driver: issue each command in turn through `execute`;
the first failing command terminates the process (no later command
runs). Each list element is a command paired with the result the
external world gives it. -/
def runPipeline : List (String × CmdResult) → PipelineResult
  | [] => .completed []
  | (c, r) :: rest =>
    match execute r with
    | .exited s => .terminated s [c]
    | .ok =>
      match runPipeline rest with
      | .completed ran => .completed (c :: ran)
      | .terminated s ran => .terminated s (c :: ran)

/-- Exit status recorded in a pipeline outcome (`none` when the run
completed normally). -/
def exitStatusOf : PipelineResult → Option Nat
  | .completed _ => none
  | .terminated s _ => some s

/-- Commands that were actually issued during the run. -/
def ranCommandsOf : PipelineResult → List String
  | .completed ran => ran
  | .terminated _ ran => ran

/-- The claim's reading of the exit behavior ("terminates … with a
non-zero outcome"): the run ended in termination and the recorded exit
status is non-zero. -/
def terminatedNonzero : PipelineResult → Bool
  | .completed _ => false
  | .terminated s _ => s != 0

/-! ### Failure paths of the preprocessing loops (script lines 153-188)

Both the per-language training-corpora loop and the test-extraction
loop locate a raw file with `list(Path(orig).rglob(pattern))[0]` and
then shell out through `execute`.  Indexing `[0]` into the empty list
(no file matched) raises an uncaught `IndexError`; a failing command
goes through `execute`'s log-and-`exit()` path. -/

/-- Environment a preprocessing loop runs in: the files matching each
`rglob` pattern, and whether the shell pipeline issued for a located
raw file succeeds. -/
structure PipelineEnv where
  rglobMatches : String → List String
  cmdOk : String → Bool

/-- Outcome of a preprocessing stage: finished; terminated via
`execute`'s failure path with the given process exit status; or aborted
by an uncaught in-process Python exception. -/
inductive StageOutcome
  | ok
  | exitedCmdFail (status : Nat)
  | raised (exc : String)
deriving DecidableEq

/-- `list(Path(orig).rglob(pattern))[0]`: the first match, or an
`IndexError` when nothing matched. -/
def locateFirst (ms : List String) : Option String :=
  ms.head?

/-- Did the stage abort with an uncaught in-process exception? -/
def isRaised : StageOutcome → Bool
  | .raised _ => true
  | _ => false

/-- The training-corpora loop for one language (script lines 162-171):
for each corpus name, locate the raw file (IndexError aborts the
process if no file matches), then `execute` the
normalize/tokenize/append shell pipeline on it (a failing command logs
and exits with status 0). -/
def corporaLoop (env : PipelineEnv) : List String → StageOutcome
  | [] => .ok
  | c :: rest =>
    match locateFirst (env.rglobMatches c) with
    | none => .raised "IndexError"
    | some raw =>
      match execute (if env.cmdOk raw then .success else .failure "") with
      | .exited s => .exitedCmdFail s
      | .ok => corporaLoop env rest

/-- The test-extraction loop (script lines 176-188): same
locate-then-execute shape, iterated over the `(lang, source)` pairs of
the test release. -/
def testExtractionLoop (env : PipelineEnv) : List String → StageOutcome :=
  corporaLoop env

/-! ### Length/ratio cleaning stage (script lines 247-265)

A processed file is modelled as its list of lines, each line as its
list of whitespace tokens.  Non-test file pairs go through Moses
`clean-corpus-n.perl -ratio 1.5 ... 1 250`; test pairs are copied
through with `cp`. -/

/-- A line of a tokenized corpus file: its whitespace-separated tokens. -/
abbrev Line := List String

/-- Modelled from the spec: the external Moses script
`clean-corpus-n.perl` (invoked with `-ratio 1.5 … 1 250`, not part of
this repository) keeps a sentence pair iff both sides have between 1
and 250 tokens and neither side is more than 1.5 times longer than the
other.  `2 * max ≤ 3 * min` is the integer form of
`max/min ≤ 1.5`. -/
def keepPair (p : Line × Line) : Bool :=
  1 ≤ p.1.length && p.1.length ≤ 250 &&
  (1 ≤ p.2.length && p.2.length ≤ 250) &&
  2 * max p.1.length p.2.length ≤ 3 * min p.1.length p.2.length

/-- Modelled from the spec: the cleaning filter drops exactly the pairs
violating `keepPair`, keeping the rest in order. -/
def cleanCorpus (pairs : List (Line × Line)) : List (Line × Line) :=
  pairs.filter keepPair

/-- The cleaning stage for one file pair (script lines 256-265): test
pairs (`"test" in src_file_pair`) are copied verbatim with `cp` for
both languages; all other pairs are routed through the cleaning
filter. -/
def cleanFilePairStage (isTestPair : Bool) (src tgt : List Line) :
    List Line × List Line :=
  if isTestPair then (src, tgt)
  else ((cleanCorpus (src.zip tgt)).map Prod.fst,
        (cleanCorpus (src.zip tgt)).map Prod.snd)

/-! ### Binarization hand-off (script lines 247-279)

`file_pairs` collects, per language and split, the `os.path.splitext`
prefix of each BPE file; duplicates are collapsed with `set(...)`,
whose iteration order in Python is arbitrary (string hashing is
salted per process).  `file_pairs_` is then built in that arbitrary
order and destructured positionally as
`train_pref, val_pref, test_pref = file_pairs_`. -/

/-- `file_pairs` as the script builds it: one entry per language per
split, in dict-iteration order train, val, test. -/
def file_pairs : List String :=
  ["bpe.train.processed.en-fr", "bpe.train.processed.en-fr",
   "bpe.val.processed.en-fr", "bpe.val.processed.en-fr",
   "bpe.test.processed.en-fr", "bpe.test.processed.en-fr"]

/-- The elements of `set(file_pairs)` (duplicates removed); Python
fixes the membership but not the iteration order. -/
def pySetElems (l : List String) : List String :=
  l.dedup

/-- Remove the first occurrence of `pat` from a character list; on the
pipeline's file-pair names (which contain `".processed"` exactly once)
this agrees with Python's `str.replace(".processed", "")`. -/
def removeFirstOccurrence (pat : List Char) : List Char → List Char
  | [] => []
  | c :: rest =>
    if pat.isPrefixOf (c :: rest) then (c :: rest).drop pat.length
    else c :: removeFirstOccurrence pat rest

/-- `file_pair.replace(".processed", "")`: the cleaned-directory
file-pair prefix derived from a processed file-pair name. -/
def cleanedPairName (s : String) : String :=
  String.mk (removeFirstOccurrence ".processed".toList s.toList)

/-- `file_pairs_` as the script builds it: the cleaned prefix of each
element of `set(file_pairs)`, in the set's iteration order. -/
def cleanedFilePairs (setOrder : List String) : List String :=
  setOrder.map cleanedPairName

/-- The binarization stage: when the `--binarize` flag is set, the
prefixes are unpacked positionally
(`train_pref, val_pref, test_pref = file_pairs_`) from the
set-iteration order `setOrder` and `fairseq-preprocess` is invoked
exactly once with `(trainpref, validpref, testpref)` bound to the
first, second and third element; a list of any other length makes the
unpacking raise and nothing is invoked. -/
def binarizeInvocations (binarize : Bool) (setOrder : List String) :
    List (String × String × String) :=
  if binarize then
    match cleanedFilePairs setOrder with
    | [a, b, c] => [(a, b, c)]
    | _ => []
  else []

/-! ### Overwrite prompt and per-language preprocessing (script lines 65-79, 153-171) -/

/-- The `while inp not in ["y", "n"]` prompt loop: consume operator
inputs until the first `"y"` or `"n"`; `none` when the input stream is
exhausted without a valid answer. -/
def askYN : List String → Option Bool
  | [] => none
  | i :: rest =>
    if i = "y" then some true
    else if i = "n" then some false
    else askYN rest

/-- `remove_if_exists(path, ask)`: returns
`(file was deleted, function return value)`. With `ask=True` and an
existing file, answering `y` deletes the file and returns `True`;
answering `n` keeps the file and returns `False`; a missing file is
untouched and the call returns `True`. -/
def remove_if_exists (fileExists ask : Bool) (inputs : List String) :
    Option (Bool × Bool) :=
  if fileExists then
    if ask then
      match askYN inputs with
      | none => none
      | some true => some (true, true)
      | some false => some (false, false)
    else some (true, true)
  else some (false, true)

/-- Per-language preprocessing (script lines 153-171): call
`remove_if_exists(dest, ask=True)`; a `False` return logs and
`continue`s to the next language, processing no corpus at all;
otherwise every configured corpus is piped and appended in order.
Returns `(existing file deleted, corpora processed)`; `none` when the
prompt never gets a valid answer. -/
def processLang (fileExists : Bool) (inputs : List String)
    (corpora : List String) : Option (Bool × List String) :=
  match remove_if_exists fileExists true inputs with
  | none => none
  | some (removed, keepGoing) =>
    if keepGoing then some (removed, corpora)
    else some (removed, [])

end Wmt14Prep

namespace FairseqLoguru

/-! ### `fairseq/utils_loguru.py`

Python strings are modelled as `List Char`; `pySplit`/`pyJoin` mirror
`str.split(sep)` and `sep.join(parts)` for a one-character separator. -/

/-- `s.split(sep)` for a single-character separator: splits at every
occurrence; `"".split(".") == [""]`. -/
def pySplit (sep : Char) : List Char → List (List Char)
  | [] => [[]]
  | c :: rest =>
    let r := pySplit sep rest
    if c = sep then [] :: r
    else
      match r with
      | [] => [[c]]
      | g :: gs => (c :: g) :: gs

/-- `sep.join(parts)` for a single-character separator. -/
def pyJoin (sep : Char) : List (List Char) → List Char
  | [] => []
  | [g] => g
  | g :: g' :: gs => g ++ sep :: pyJoin sep (g' :: gs)

/-- The `name_list` of `fairseq_cli` modules whose legacy logger names
are preserved. -/
def name_list : List (List Char) :=
  ["eval_lm".toList, "generate".toList, "hydra_train".toList,
   "interactive".toList, "preprocess".toList, "train".toList,
   "validate".toList]

/-- The part of a loguru record the patcher touches: the basename of
the originating file (`record["file"].name`) and the
`record["extra"]["name"]` entry. -/
structure LogRecord where
  fileName : List Char
  extraName : Option (List Char)
deriving DecidableEq

/-- `loguru_name_patcher`: drop the final dot-separated component of
the file's basename (`".".join(filename.split(".")[:-1])`), prefix
`"fairseq_cli."` when the result is a listed module name, and store it
in `record["extra"]["name"]`. -/
def loguru_name_patcher (record : LogRecord) : LogRecord :=
  let filename := record.fileName
  let name := pyJoin '.' ((pySplit '.' filename).dropLast)
  let name := if name ∈ name_list then "fairseq_cli.".toList ++ name else name
  { record with extraName := some name }

/-- The claim's reading of "stem": the filename without its final
`".py"` extension (the filename itself when it does not end in
`".py"`). -/
def specStem (filename : List Char) : List Char :=
  if filename.reverse.take 3 = ".py".toList.reverse then
    filename.take (filename.length - 3)
  else filename

/-- The extra-name the claim says the patcher stores: the stem,
prefixed with `"fairseq_cli."` when the stem is a listed module
name. -/
def claimedExtraName (filename : List Char) : List Char :=
  let stem := specStem filename
  if stem ∈ name_list then "fairseq_cli.".toList ++ stem else stem

/-! ### Handler levels (`loguru_set_level` / `get_effective_level`) -/

/-- The slice of a loguru handler the two functions touch: its sink
(untouched) and its level field (`_levelno`, read back through the
`levelno` property). -/
structure Handler where
  sink : String
  levelno : Nat
deriving DecidableEq

/-- `loguru_set_level`: assign `level` to every handler's level field. -/
def loguru_set_level (handlers : List Handler) (level : Nat) : List Handler :=
  handlers.map (fun h => { h with levelno := level })

/-- Python `min(list)`: `ValueError` on the empty list, modelled as
`none`. -/
def pyMin : List Nat → Option Nat
  | [] => none
  | x :: xs => some (xs.foldl Nat.min x)

/-- `get_effective_level`: collect every handler's `levelno` and take
the minimum. -/
def get_effective_level (handlers : List Handler) : Option Nat :=
  pyMin (handlers.map (fun h => h.levelno))

end FairseqLoguru

namespace Wmt14Prep

theorem awkFilterAux_eq_indices (keep : Nat → Bool) (xs : List String) :
    ∀ nr, awkFilterAux keep nr xs =
      ((List.range xs.length).filter (fun i => keep (i + nr))).map
        (fun i => xs.getD i "") := by
  induction xs with
  | nil => intro nr; simp [awkFilterAux]
  | cons x xs ih =>
    intro nr
    have hf : ((fun i => keep (i + nr)) ∘ Nat.succ) = fun i => keep (i + (nr + 1)) := by
      funext i
      exact congrArg keep (by omega)
    have key : ∀ L : List Nat,
        (L.map Nat.succ).map (fun i => (x :: xs).getD i "") =
          L.map (fun i => xs.getD i "") := by
      intro L
      rw [List.map_map]
      have hcomp : ((fun i => (x :: xs).getD i "") ∘ Nat.succ) =
          fun i => xs.getD i "" := by
        funext i
        simp [List.getD]
      rw [hcomp]
    cases h : keep nr with
    | false =>
      simp only [awkFilterAux, h, Bool.false_eq_true, if_false, ih (nr + 1),
        List.length_cons, List.range_succ_eq_map, List.filter_cons, Nat.zero_add]
      rw [List.filter_map, hf, key]
    | true =>
      simp only [awkFilterAux, h, if_true, ih (nr + 1), List.length_cons,
        List.range_succ_eq_map, List.filter_cons, Nat.zero_add]
      rw [List.filter_map, hf, List.map_cons, key]
      simp [List.getD]

theorem awkFilter_eq_indices (keep : Nat → Bool) (xs : List String) :
    awkFilter keep xs = (keptIndices keep xs.length).map (fun i => xs.getD i "") := by
  rw [awkFilter, awkFilterAux_eq_indices, keptIndices]

/-- Counting lemma: among the 1-based line numbers `1, …, n`, exactly
`n / k` are multiples of `k`. -/
theorem length_keptIndices_mod (k n : Nat) :
    (keptIndices (fun nr => nr % k == 0) n).length = n / k := by
  induction n with
  | zero => simp [keptIndices]
  | succ n ih =>
    simp only [keptIndices] at ih ⊢
    rw [List.range_succ, List.filter_append, List.length_append, ih]
    cases h : (n + 1) % k == 0 with
    | false =>
      have hdvd : ¬ k ∣ (n + 1) := by
        simpa [Nat.dvd_iff_mod_eq_zero] using h
      rw [Nat.succ_div, if_neg hdvd]
      simp [h]
    | true =>
      have hdvd : k ∣ (n + 1) := by
        simpa [Nat.dvd_iff_mod_eq_zero] using h
      rw [Nat.succ_div, if_pos hdvd]
      simp [h]

/-- Counting lemma: among the 1-based line numbers `1, …, n`, exactly
`n - n / k` are not multiples of `k`. -/
theorem length_keptIndices_not_mod (k n : Nat) :
    (keptIndices (fun nr => nr % k != 0) n).length = n - n / k := by
  induction n with
  | zero => simp [keptIndices]
  | succ n ih =>
    simp only [keptIndices] at ih ⊢
    rw [List.range_succ, List.filter_append, List.length_append, ih]
    have hle : n / k ≤ n := Nat.div_le_self n k
    cases h : (n + 1) % k == 0 with
    | false =>
      have hdvd : ¬ k ∣ (n + 1) := by
        simpa [Nat.dvd_iff_mod_eq_zero] using h
      rw [Nat.succ_div, if_neg hdvd]
      simp only [List.filter_cons, List.filter_nil, h, bne, Bool.not_false,
        if_true, List.length_cons, List.length_nil]
      omega
    | true =>
      have hdvd : k ∣ (n + 1) := by
        simpa [Nat.dvd_iff_mod_eq_zero] using h
      rw [Nat.succ_div, if_pos hdvd]
      simp only [List.filter_cons, List.filter_nil, h, bne, Bool.not_true,
        Bool.false_eq_true, if_false, List.length_nil]
      omega

/-- C1: the train/validation split places exactly the lines whose
1-based line number is a multiple of 1333 into the validation output
(`⌊N/1333⌋` of them) and all other lines, in their original order
(`valIndices`/`trainIndices` are filters of the increasing
`List.range`), into the training output.  Determinism is inherent:
`splitVal` and `splitTrain` are functions of the input file alone. -/
theorem split_fixed_modulus (xs : List String) :
    splitVal xs = (valIndices xs.length).map (fun i => xs.getD i "") ∧
    splitTrain xs = (trainIndices xs.length).map (fun i => xs.getD i "") ∧
    (splitVal xs).length = xs.length / 1333 ∧
    (splitTrain xs).length = xs.length - xs.length / 1333 := by
  refine ⟨awkFilter_eq_indices _ xs, awkFilter_eq_indices _ xs, ?_, ?_⟩
  · rw [splitVal, awkFilter_eq_indices, List.length_map]
    exact length_keptIndices_mod 1333 xs.length
  · rw [splitTrain, awkFilter_eq_indices, List.length_map]
    exact length_keptIndices_not_mod 1333 xs.length

/-- C6: for two line-aligned files of equal length, the split keeps
exactly the same (0-based) original line positions for both languages:
the train outputs are the maps of one and the same index list
`trainIndices src.length` over the two files, and likewise the
validation outputs; so line `i` of the source-language output and line
`i` of the target-language output always come from the same original
line number. -/
theorem split_alignment (src tgt : List String) (h : src.length = tgt.length) :
    splitTrain src = (trainIndices src.length).map (fun i => src.getD i "") ∧
    splitTrain tgt = (trainIndices src.length).map (fun i => tgt.getD i "") ∧
    splitVal src = (valIndices src.length).map (fun i => src.getD i "") ∧
    splitVal tgt = (valIndices src.length).map (fun i => tgt.getD i "") := by
  refine ⟨awkFilter_eq_indices _ src, ?_, awkFilter_eq_indices _ src, ?_⟩
  · rw [h]; exact awkFilter_eq_indices _ tgt
  · rw [h]; exact awkFilter_eq_indices _ tgt

/-- Witness for C6 at a concrete aligned pair of two-line files. -/
theorem split_alignment_witness :
    (["hello world", "good morning"] : List String).length =
      (["bonjour monde", "bonne matinee"] : List String).length ∧
    (splitTrain ["hello world", "good morning"] =
        (trainIndices (["hello world", "good morning"] : List String).length).map
          (fun i => (["hello world", "good morning"] : List String).getD i "") ∧
      splitTrain ["bonjour monde", "bonne matinee"] =
        (trainIndices (["hello world", "good morning"] : List String).length).map
          (fun i => (["bonjour monde", "bonne matinee"] : List String).getD i "") ∧
      splitVal ["hello world", "good morning"] =
        (valIndices (["hello world", "good morning"] : List String).length).map
          (fun i => (["hello world", "good morning"] : List String).getD i "") ∧
      splitVal ["bonjour monde", "bonne matinee"] =
        (valIndices (["hello world", "good morning"] : List String).length).map
          (fun i => (["bonjour monde", "bonne matinee"] : List String).getD i "")) :=
  ⟨rfl, split_alignment ["hello world", "good morning"]
    ["bonjour monde", "bonne matinee"] rfl⟩

/-- C2 counterexample: a pipeline whose first command fails does
terminate immediately — the second command never runs — but `execute`
calls the bare Python `exit()`, so the process exit status is 0, not
the non-zero outcome the claim states. -/
theorem claim2_counterexample :
    runPipeline [("wget", CmdResult.failure "404"), ("tar", CmdResult.success)]
      = PipelineResult.terminated 0 ["wget"] ∧
    terminatedNonzero
      (runPipeline [("wget", CmdResult.failure "404"),
        ("tar", CmdResult.success)]) = false := by
  refine ⟨by decide, by decide⟩

/-- C2 amended: whenever any invoked external command returns a
failure status, the pipeline process terminates immediately — the
failing command is the last one run and no later command executes —
but with exit status 0 (bare `exit()` raises `SystemExit(None)`),
not a non-zero status. -/
theorem execute_fail_fast (pre post : List (String × CmdResult)) (c o : String)
    (hpre : ∀ p ∈ pre, p.2 = CmdResult.success) :
    runPipeline (pre ++ (c, CmdResult.failure o) :: post)
      = PipelineResult.terminated 0 (pre.map Prod.fst ++ [c]) := by
  induction pre with
  | nil => simp [runPipeline, execute, pyExitStatus]
  | cons p pre ih =>
    have hp : p.2 = CmdResult.success := hpre p (by simp)
    have hrest : ∀ q ∈ pre, q.2 = CmdResult.success :=
      fun q hq => hpre q (by simp [hq])
    obtain ⟨name, r⟩ := p
    simp only at hp
    subst hp
    simp [runPipeline, execute, ih hrest]

/-- Witness for C2 amended: a concrete run with one successful
command, then a failing one, then a command that must not run. -/
theorem execute_fail_fast_witness :
    (∀ p ∈ [("git clone", CmdResult.success)], p.2 = CmdResult.success) ∧
    runPipeline ([("git clone", CmdResult.success)] ++
        ("wget", CmdResult.failure "404") :: [("tar", CmdResult.success)])
      = PipelineResult.terminated 0
          ([("git clone", CmdResult.success)].map Prod.fst ++ ["wget"]) :=
  ⟨by decide,
    execute_fail_fast [("git clone", CmdResult.success)]
      [("tar", CmdResult.success)] "wget" "404" (by decide)⟩

/-- C3 counterexample: when no file matches the expected raw-corpus
pattern (the `rglob` result is empty), the preprocessing loop aborts by
raising an uncaught in-process `IndexError`
(`list(Path(...).rglob(...))[0]` on an empty list), not through the
uniform external-command failure path — even though every external
command in the environment succeeds. -/
theorem claim3_counterexample :
    corporaLoop ⟨fun _ => [], fun _ => true⟩ ["news-commentary-v9.fr-en"]
      = StageOutcome.raised "IndexError" ∧
    isRaised (corporaLoop ⟨fun _ => [], fun _ => true⟩
      ["news-commentary-v9.fr-en"]) = true := by
  refine ⟨rfl, rfl⟩

/-- C3 amended: an invoked external command's failure is surfaced
uniformly (logged, then termination with status 0), but a missing
expected raw-corpus or test file is not an external-command failure:
it aborts the loop with an uncaught in-process `IndexError`.  These
are the only failure paths: a raised exception is always `IndexError`
coming from an empty `rglob` match list of one of the corpora, and a
command-failure termination always carries status 0. -/
theorem preprocessing_failure_paths (env : PipelineEnv) (corpora : List String) :
    (∀ e, corporaLoop env corpora = StageOutcome.raised e →
      e = "IndexError" ∧ ∃ c ∈ corpora, env.rglobMatches c = []) ∧
    (∀ s, corporaLoop env corpora = StageOutcome.exitedCmdFail s → s = 0) := by
  induction corpora with
  | nil =>
    constructor <;> intro x h <;> simp [corporaLoop] at h
  | cons c rest ih =>
    constructor
    · intro e h
      cases hm : env.rglobMatches c with
      | nil =>
        simp only [corporaLoop, locateFirst, hm, List.head?] at h
        have he : e = "IndexError" := by
          cases h
          rfl
        exact ⟨he, c, by simp, hm⟩
      | cons m ms =>
        simp only [corporaLoop, locateFirst, hm, List.head?] at h
        cases hc : env.cmdOk m with
        | false => simp [execute, hc, pyExitStatus] at h
        | true =>
          simp only [hc, if_true, execute] at h
          obtain ⟨he, c', hc', hm'⟩ := ih.1 e h
          exact ⟨he, c', by simp [hc'], hm'⟩
    · intro s h
      cases hm : env.rglobMatches c with
      | nil =>
        simp only [corporaLoop, locateFirst, hm, List.head?] at h
        cases h
      | cons m ms =>
        simp only [corporaLoop, locateFirst, hm, List.head?] at h
        cases hc : env.cmdOk m with
        | false =>
          simp only [hc, Bool.false_eq_true, if_false, execute, pyExitStatus,
            Option.getD_none] at h
          cases h
          rfl
        | true =>
          simp only [hc, if_true, execute] at h
          exact ih.2 s h

/-- Witness for C3 amended: applying the characterization to the
concrete environment with no matching files. -/
theorem preprocessing_failure_paths_witness :
    "IndexError" = "IndexError" ∧
    ∃ c ∈ ["news-commentary-v9.fr-en"],
      (PipelineEnv.mk (fun _ => []) (fun _ => true)).rglobMatches c = [] :=
  (preprocessing_failure_paths ⟨fun _ => [], fun _ => true⟩
    ["news-commentary-v9.fr-en"]).1 "IndexError" rfl

/-- C4: the cleaning stage copies the test-split file pair through
verbatim (`cp` for both languages): for every pair of BPE-applied test
files — including ones containing pairs that violate the length or
ratio bounds — the cleaned pair is identical to the input pair and in
particular has exactly the same number of lines on both sides. -/
theorem test_split_copied_verbatim (src tgt : List Line) :
    cleanFilePairStage true src tgt = (src, tgt) ∧
    (cleanFilePairStage true src tgt).1.length = src.length ∧
    (cleanFilePairStage true src tgt).2.length = tgt.length :=
  ⟨rfl, rfl, rfl⟩

/-- C5: every sentence pair retained by the train/validation cleaning
filter has a source token count in `[1, 250]`, a target token count in
`[1, 250]`, and a larger-to-smaller token-count ratio of at most 1.5. -/
theorem cleaned_pairs_within_bounds (pairs : List (Line × Line))
    (p : Line × Line) (hp : p ∈ cleanCorpus pairs) :
    1 ≤ p.1.length ∧ p.1.length ≤ 250 ∧
    1 ≤ p.2.length ∧ p.2.length ≤ 250 ∧
    (max p.1.length p.2.length : ℚ) / (min p.1.length p.2.length : ℚ) ≤ 1.5 := by
  have hkeep : keepPair p = true := (List.mem_filter.mp hp).2
  simp only [keepPair, Bool.and_eq_true, decide_eq_true_eq] at hkeep
  obtain ⟨⟨⟨h1, h2⟩, h3, h4⟩, h5⟩ := hkeep
  refine ⟨h1, h2, h3, h4, ?_⟩
  have hminN : 1 ≤ min p.1.length p.2.length := le_min h1 h3
  have hmin : (0 : ℚ) < (min p.1.length p.2.length : ℚ) := by
    exact_mod_cast Nat.lt_of_lt_of_le Nat.zero_lt_one hminN
  rw [div_le_iff₀ hmin]
  have h5q : (2 : ℚ) * (max p.1.length p.2.length : ℚ) ≤
      3 * (min p.1.length p.2.length : ℚ) := by
    exact_mod_cast h5
  have h15 : (1.5 : ℚ) = 3 / 2 := by norm_num
  rw [h15]
  linarith

/-- Witness for C5 at a concrete one-pair corpus. -/
theorem cleaned_pairs_within_bounds_witness :
    (["the", "cat"], ["le", "chat"]) ∈
      cleanCorpus [(["the", "cat"], ["le", "chat"])] ∧
    (1 ≤ ((["the", "cat"], ["le", "chat"]) : Line × Line).1.length ∧
      ((["the", "cat"], ["le", "chat"]) : Line × Line).1.length ≤ 250 ∧
      1 ≤ ((["the", "cat"], ["le", "chat"]) : Line × Line).2.length ∧
      ((["the", "cat"], ["le", "chat"]) : Line × Line).2.length ≤ 250 ∧
      (max ((["the", "cat"], ["le", "chat"]) : Line × Line).1.length
          ((["the", "cat"], ["le", "chat"]) : Line × Line).2.length : ℚ) /
        (min ((["the", "cat"], ["le", "chat"]) : Line × Line).1.length
          ((["the", "cat"], ["le", "chat"]) : Line × Line).2.length : ℚ) ≤ 1.5) :=
  ⟨by decide, cleaned_pairs_within_bounds [(["the", "cat"], ["le", "chat"])]
    (["the", "cat"], ["le", "chat"]) (by decide)⟩

/-- C7 (code bug): `fairseq-preprocess` is indeed invoked exactly once,
but the three prefixes are unpacked positionally from the iteration
order of `set(file_pairs)`, which Python does not fix (string hashing
is salted per process).  Under the legal set-iteration order
`[test, val, train]` — a permutation of the set's elements — the
`--trainpref` slot receives the cleaned *test* prefix, so the prefixes
are not bound to their matching parameters on every execution. -/
theorem binarize_positional_misbinding :
    List.Perm
      ["bpe.test.processed.en-fr", "bpe.val.processed.en-fr",
        "bpe.train.processed.en-fr"]
      (pySetElems file_pairs) ∧
    binarizeInvocations true
        ["bpe.test.processed.en-fr", "bpe.val.processed.en-fr",
          "bpe.train.processed.en-fr"]
      = [("bpe.test.en-fr", "bpe.val.en-fr", "bpe.train.en-fr")] ∧
    (binarizeInvocations true
        ["bpe.test.processed.en-fr", "bpe.val.processed.en-fr",
          "bpe.train.processed.en-fr"]).length = 1 ∧
    ("bpe.test.en-fr" : String) ≠ cleanedPairName "bpe.train.processed.en-fr" := by
  refine ⟨by decide, by decide, by decide, by decide⟩

/-- C8: during normalization/tokenization, when the per-language
destination file already exists the operator is prompted; answering
`y` (overwrite) deletes the file and processes every configured corpus
for that language, while answering `n` (skip) leaves the file in place
and processes no corpus at all for that language — regardless of what
further input follows the answer and for any corpus list. -/
theorem overwrite_prompt_behavior (rest corpora : List String) :
    processLang true ("y" :: rest) corpora = some (true, corpora) ∧
    processLang true ("n" :: rest) corpora = some (false, []) := by
  constructor <;>
    simp [processLang, remove_if_exists, askYN]

end Wmt14Prep

namespace FairseqLoguru

/-- C9 counterexample: for a record originating from a file named
`train` (no extension), the file's stem is `train`, a listed module
name, so the claim requires the stored extra name to be
`fairseq_cli.train`; the patcher instead joins
`"train".split(".")[:-1] == []` into the empty string and stores `""`. -/
theorem claim9_counterexample :
    specStem "train".toList ∈ name_list ∧
    (loguru_name_patcher ⟨"train".toList, none⟩).extraName = some [] ∧
    (loguru_name_patcher ⟨"train".toList, none⟩).extraName ≠
      some (claimedExtraName "train".toList) := by
  refine ⟨by decide, by decide, by decide⟩

theorem pySplit_ne_nil (sep : Char) (l : List Char) : pySplit sep l ≠ [] := by
  cases l with
  | nil => simp [pySplit]
  | cons c rest =>
    simp only [pySplit]
    split
    · simp
    · split <;> simp

theorem pySplit_append_sep (sep : Char) (xs ys : List Char) :
    pySplit sep (xs ++ sep :: ys) = pySplit sep xs ++ pySplit sep ys := by
  induction xs with
  | nil => simp [pySplit]
  | cons c xs ih =>
    by_cases h : c = sep
    · subst h
      simp [pySplit, ih]
    · cases hx : pySplit sep xs with
      | nil => exact absurd hx (pySplit_ne_nil sep xs)
      | cons g0 gs0 =>
        simp [pySplit, h, ih, hx]

theorem pySplit_of_not_mem (sep : Char) (xs : List Char) (h : sep ∉ xs) :
    pySplit sep xs = [xs] := by
  induction xs with
  | nil => simp [pySplit]
  | cons c xs ih =>
    have hc : ¬ c = sep := fun hcs => h (hcs ▸ List.mem_cons_self c xs)
    have hxs : sep ∉ xs := fun hm => h (List.mem_cons_of_mem c hm)
    simp [pySplit, hc, ih hxs]

theorem pyJoin_pySplit (sep : Char) (xs : List Char) :
    pyJoin sep (pySplit sep xs) = xs := by
  induction xs with
  | nil => simp [pySplit, pyJoin]
  | cons c xs ih =>
    by_cases h : c = sep
    · cases hx : pySplit sep xs with
      | nil => exact absurd hx (pySplit_ne_nil sep xs)
      | cons g gs =>
        rw [hx] at ih
        simp [pySplit, pyJoin, h, hx, ih]
    · cases hx : pySplit sep xs with
      | nil => exact absurd hx (pySplit_ne_nil sep xs)
      | cons g gs =>
        rw [hx] at ih
        cases gs with
        | nil =>
          have ihg : g = xs := by simpa [pyJoin] using ih
          simp [pySplit, pyJoin, h, hx, ihg]
        | cons g1 gs1 =>
          simp only [pySplit, hx, h, if_false]
          simp only [pyJoin] at ih ⊢
          rw [List.cons_append, ih]

/-- C9 amended: the patcher drops the final dot-separated component of
the originating file's basename — for a basename of the shape
`stem + ".py"` this is exactly the stem — and stores it prefixed with
`"fairseq_cli."` exactly when it is a listed command-line module name.
(For a basename with no dot the stored name is the empty string, not
the basename itself, which is where the original claim fails.) -/
theorem name_patcher_py_files (stem : List Char) (record : LogRecord)
    (hname : record.fileName = stem ++ ".py".toList) :
    (loguru_name_patcher record).extraName =
      some (if stem ∈ name_list then "fairseq_cli.".toList ++ stem else stem) := by
  have hpy : (".py".toList : List Char) = '.' :: ['p', 'y'] := by decide
  have hsplit : pySplit '.' (stem ++ ".py".toList) =
      pySplit '.' stem ++ [['p', 'y']] := by
    rw [hpy, pySplit_append_sep, pySplit_of_not_mem '.' ['p', 'y'] (by decide)]
  have hstem : pyJoin '.' ((pySplit '.' record.fileName).dropLast) = stem := by
    rw [hname, hsplit, List.dropLast_concat, pyJoin_pySplit]
  simp only [loguru_name_patcher, hstem]

/-- Witness for C9 amended at the basename `train.py`. -/
theorem name_patcher_py_files_witness :
    (LogRecord.mk "train.py".toList none).fileName =
      "train".toList ++ ".py".toList ∧
    (loguru_name_patcher ⟨"train.py".toList, none⟩).extraName =
      some (if "train".toList ∈ name_list then
        "fairseq_cli.".toList ++ "train".toList else "train".toList) :=
  ⟨by decide,
    name_patcher_py_files "train".toList ⟨"train.py".toList, none⟩ (by decide)⟩

theorem foldl_min_map_const {α : Type} (L : Nat) (l : List α) :
    (l.map (fun _ => L)).foldl Nat.min L = L := by
  induction l with
  | nil => rfl
  | cons x xs ih => simpa [Nat.min_self] using ih

/-- C10: on a logger with at least one registered handler,
`loguru_set_level` assigns `L` to every handler's level field, and
`get_effective_level` — the minimum level over all handlers — then
returns `L`. -/
theorem set_level_then_effective (handlers : List Handler) (L : Nat)
    (h : handlers ≠ []) :
    (∀ h' ∈ loguru_set_level handlers L, h'.levelno = L) ∧
    get_effective_level (loguru_set_level handlers L) = some L := by
  constructor
  · intro h' hmem
    simp only [loguru_set_level, List.mem_map] at hmem
    obtain ⟨a, _, rfl⟩ := hmem
    rfl
  · cases handlers with
    | nil => exact absurd rfl h
    | cons h0 hs =>
      simp only [get_effective_level, loguru_set_level, List.map_map,
        List.map_cons, Function.comp, pyMin, Option.some.injEq]
      exact foldl_min_map_const L hs

/-- Witness for C10 on a two-handler logger. -/
theorem set_level_then_effective_witness :
    ([⟨"stderr", 30⟩, ⟨"logfile", 10⟩] : List Handler) ≠ [] ∧
    ((∀ h' ∈ loguru_set_level [⟨"stderr", 30⟩, ⟨"logfile", 10⟩] 20,
        h'.levelno = 20) ∧
      get_effective_level
        (loguru_set_level [⟨"stderr", 30⟩, ⟨"logfile", 10⟩] 20) = some 20) :=
  ⟨by decide, set_level_then_effective [⟨"stderr", 30⟩, ⟨"logfile", 10⟩] 20
    (by decide)⟩

end FairseqLoguru
